import Mathlib

/-!
# Verification of the livesplit auto-splitter runtime

A shallow embedding, in Lean 4, of the core of the `livesplit-auto-splitting`
crate (signature matcher, process adapter, pointer-path registry, host-call
surface, tick-loop driver, and the WASI filesystem shim), together with
theorems checking the natural-language specification against the code.

Modelling conventions:
* Rust machine integers are modelled as `Nat`/`Int`; wrapping casts carry an
  explicit `% 2^w`.  `usize` subtraction is `Nat` subtraction; the one place
  the Rust code can underflow a `usize` subtraction (`Signature`, on an empty
  pattern or a pattern longer than the buffer) is discussed at the relevant
  definitions, and no theorem below depends on the truncated value except
  where model and code agree (an immediate match at offset `0`).
* Fallible Rust code is embedded with `Option`/`Except`.  A Rust `panic!`
  (e.g. `.unwrap()` on an `Err`) is a failure outcome and is embedded as the
  error case of an `Except`.
* `f32`/`f64` payloads are carried as raw IEEE-754 bit patterns (`Nat`); the
  only floating-point operation the embedded code performs is the NaN test on
  `f64` bits, which is defined on the bit pattern.
-/

namespace LiveSplit

/-! ## Signature matcher (`process.rs`, `Signature`) -/

/-- One signature character, as in `Signature::new`'s `filter_map`:
hex digits map to their value, `?` maps to the sentinel `0x10`, anything
else is dropped.  (Characters are compared by code point; all characters
the filter accepts are ASCII, and non-ASCII characters are dropped exactly
as in the UTF-8 byte iteration of the source.) -/
def sigNibble (b : Nat) : Option Nat :=
  if 48 ≤ b ∧ b ≤ 57 then some (b - 48)
  else if 97 ≤ b ∧ b ≤ 102 then some (b - 97 + 0xA)
  else if 65 ≤ b ∧ b ≤ 70 then some (b - 65 + 0xA)
  else if b = 63 then some 0x10
  else none

/-- The `while let (Some(a), Some(b))` loop of `Signature::new`: consume
nibbles in pairs; a pair becomes the byte `(a << 4) | b` (a `u8` shift, so
reduced `% 256`) and the mask bit `a == 0x10 && b == 0x10`. -/
def sigPairs : List Nat → List (Nat × Bool)
  | a :: b :: rest => ((((a <<< 4) % 256) ||| b), (a == 0x10 && b == 0x10)) :: sigPairs rest
  | _ => []

/-- The first loop of `Signature::new` building the raw skip table: for each
pattern position `i` strictly before `e` (the last index), a non-wildcard
byte records distance `e - i` in the table, a wildcard byte records it in
`unknown`. -/
def skipLoop (e : Nat) : List (Nat × Bool) → Nat → List Nat → Nat → List Nat × Nat
  | [], _, skip, unknown => (skip, unknown)
  | (byte, m) :: rest, i, skip, unknown =>
    if m then skipLoop e rest (i + 1) skip (e - i)
    else skipLoop e rest (i + 1) (skip.set byte (e - i)) unknown

/-- Compiled signature: pattern bytes, wildcard mask, and the 256-entry
Boyer-Moore-Horspool-style skip table. -/
structure Signature where
  bytes : List Nat
  mask : List Bool
  skip_offsets : List Nat

/-- `Signature::new`, over the list of code points of the signature string.

The source computes `end = bytes.len() - 1` as a `usize`; on an empty
pattern that subtraction underflows (a panic in a debug build).  The `Nat`
truncation used here produces the same compiled table as the release build
(the pre-`end` loop is empty either way, and `unknown` becomes
`bytes.len()`). -/
def Signature.newBytes (sig : List Nat) : Signature :=
  let nibbles := sig.filterMap sigNibble
  let pairs := sigPairs nibbles
  let bytes := pairs.map Prod.fst
  let mask := pairs.map Prod.snd
  let e := bytes.length - 1
  let p := skipLoop e (pairs.take e) 0 (List.replicate 256 0) 0
  let unknown := if p.2 = 0 then bytes.length else p.2
  { bytes := bytes
    mask := mask
    skip_offsets := p.1.map (fun offset => if unknown < offset ∨ offset = 0 then unknown else offset) }

/-- `Signature::new` on a signature string (the source iterates the UTF-8
bytes; `sigNibble` treats every code point ≥ 0x80 the same as every
non-hex byte, namely dropped, so iterating code points is equivalent). -/
def Signature.new (signature : String) : Signature :=
  Signature.newBytes (signature.data.map Char.toNat)

/-- The window comparison of `Signature::scan`:
`rem.iter().zip(&self.bytes).zip(&self.mask).all(|((&buf, &search), &mask)| buf == search || mask)`. -/
def Signature.windowMatch (s : Signature) (buf : List Nat) (current : Nat) : Bool :=
  (((buf.drop current).zip s.bytes).zip s.mask).all fun p => p.1.1 == p.1.2 || p.2

/-- The scan loop, with explicit fuel.  The Rust loop terminates whenever the
skip table has no zero entry (true of every compiled signature, proved
below); `buf.length + 1` units of fuel then always suffice, so the fuel
never runs out on the cases the theorems speak about. -/
def Signature.scanAux (s : Signature) (buf : List Nat) : Nat → Nat → Option Nat
  | 0, _ => none
  | fuel + 1, current =>
    if current ≤ buf.length - s.bytes.length then
      if s.windowMatch buf current then
        some current
      else
        Signature.scanAux s buf fuel
          (current + s.skip_offsets.getD (buf.getD (current + (s.bytes.length - 1)) 0) 0)
    else none

/-- `Signature::scan`. -/
def Signature.scan (s : Signature) (buf : List Nat) : Option Nat :=
  Signature.scanAux s buf (buf.length + 1) 0

/-- The specification's match predicate at offset `i`: the whole pattern fits
at `i` and every pattern position is a wildcard or agrees with the buffer. -/
def matchAt (s : Signature) (buf : List Nat) (i : Nat) : Prop :=
  i + s.bytes.length ≤ buf.length ∧
    ∀ j < s.bytes.length, s.mask.getD j false = true ∨ s.bytes.getD j 0 = buf.getD (i + j) 0

instance (s : Signature) (buf : List Nat) (i : Nat) : Decidable (matchAt s buf i) := by
  unfold matchAt
  exact instDecidableAnd

/-! ### Correctness of the skip table

The safety property needed of the Boyer-Moore-Horspool table: every entry is
between `1` and the pattern length, and whenever the table tells the scan to
skip a distance `t' < skip[c]`, the pattern position at distance `t'` from
the end is neither a wildcard nor equal to the terminal buffer byte `c`, so
no genuine match can start inside the skipped gap. -/

/-- Pattern byte at index `j` of a compiled pair list. -/
def byteAt (P : List (Nat × Bool)) (j : Nat) : Nat :=
  (P.getD j (0, false)).1

/-- Wildcard mask at index `j` of a compiled pair list. -/
def maskAt (P : List (Nat × Bool)) (j : Nat) : Bool :=
  (P.getD j (0, false)).2

/-- Loop invariant for the `unknown` accumulator of `skipLoop`: it is `0` and
no index processed so far is a wildcard, or it is a positive lower bound on
the end-distance of every wildcard processed so far. -/
def InvU (P : List (Nat × Bool)) (e i u : Nat) : Prop :=
  (u = 0 ∧ ∀ j < i, maskAt P j = false) ∨
  (1 ≤ u ∧ u ≤ e ∧ ∀ j < i, maskAt P j = true → u ≤ e - j)

/-- Loop invariant for entry `c` of the raw skip table: it is `0` and no
non-wildcard position processed so far carries byte `c`, or it is a positive
lower bound on the end-distance of every such position. -/
def InvA (P : List (Nat × Bool)) (e i : Nat) (A : List Nat) (c : Nat) : Prop :=
  (A.getD c 0 = 0 ∧ ∀ j < i, maskAt P j = false → byteAt P j ≠ c) ∨
  (1 ≤ A.getD c 0 ∧ A.getD c 0 ≤ e ∧
    ∀ j < i, maskAt P j = false → byteAt P j = c → A.getD c 0 ≤ e - j)

/-- The key property of a compiled skip table: every entry is in
`[1, bytes.length]`, and every end-distance `t` strictly below the entry for
byte `c` points at a pattern position that is neither a wildcard nor `c`. -/
def SkipSafe (s : Signature) : Prop :=
  ∀ c, c < 256 →
    1 ≤ s.skip_offsets.getD c 0 ∧
    s.skip_offsets.getD c 0 ≤ s.bytes.length ∧
    ∀ t, 1 ≤ t → t < s.skip_offsets.getD c 0 →
      s.mask.getD (s.bytes.length - 1 - t) false = false ∧
      s.bytes.getD (s.bytes.length - 1 - t) 0 ≠ c

/-! ## Process adapter (`process.rs`) -/

/-- Target-process errors (`process.rs`, `Error`). -/
inductive ProcessError
  | ListProcesses
  | ProcessDoesntExist
  | ListModules
  | OpenProcess
  | ModuleDoesntExist
  | ReadMemory
deriving DecidableEq

/-- A memory region as yielded by `proc_maps::MapRange`: start address,
size, and readability. -/
structure MapRange where
  start : Nat
  size : Nat
  is_read : Bool
deriving DecidableEq

/-- The target process.  The OS interface is modelled by its observable
behaviour: `maps` is the result of `get_process_maps` (`none` = failure),
`readMem` is the raw cross-process read (`none` = failure; on success the
OS fills the whole buffer, so exactly `len` bytes come back), `modules` is
the name → base-address map built at open time, and `is_64bit` is the
process bitness consulted by the pointer walk. -/
structure Process where
  maps : Option (List MapRange)
  readMem : Nat → Nat → Option (List Nat)
  modules : List (String × Nat)
  is_64bit : Bool

/-- `Process::module_address`. -/
def Process.module_address (p : Process) (module : String) : Except ProcessError Nat :=
  match p.modules.lookup module with
  | some address => Except.ok address
  | none => Except.error ProcessError.ModuleDoesntExist

/-- `Process::read_buf`: copy `len` bytes starting at `address`; any
failure is `ReadMemory`.  (The length check states the OS contract that a
successful read fills the caller's whole buffer.) -/
def Process.read_buf (p : Process) (address len : Nat) : Except ProcessError (List Nat) :=
  match p.readMem address len with
  | some bytes => if bytes.length = len then Except.ok bytes else Except.error ProcessError.ReadMemory
  | none => Except.error ProcessError.ReadMemory

/-- Little-endian decoding of a byte buffer (the first byte is least
significant): the numeric reinterpretation performed by `Process::read::<T>`. -/
def leDecode (bytes : List Nat) : Nat :=
  bytes.foldr (fun b acc => b % 256 + 256 * acc) 0

/-- `Process::read::<T>` for an unsigned integer type of byte width `size`:
read `size` bytes and reinterpret little-endian. -/
def Process.readNum (p : Process) (address size : Nat) : Except ProcessError Nat :=
  match p.read_buf address size with
  | Except.error e => Except.error e
  | Except.ok bytes => Except.ok (leDecode bytes)

/-- `Process::memory_pages`: enumerate regions (failure maps to
`ProcessDoesntExist` as in the source) and keep them all or only the
readable ones. -/
def Process.memory_pages (p : Process) (all : Bool) : Except ProcessError (List MapRange) :=
  match p.maps with
  | none => Except.error ProcessError.ProcessDoesntExist
  | some maps => Except.ok (maps.filter (fun range => all || range.is_read))

/-- The region loop of `Process::scan_signature`: read each page into the
scratch buffer and scan it; the `?` on `read_buf` propagates a failed read,
aborting the remaining regions. -/
def Process.scanGo (p : Process) (s : Signature) : List MapRange → Except ProcessError (Option Nat)
  | [] => Except.ok none
  | page :: rest =>
    match p.read_buf page.start page.size with
    | Except.error e => Except.error e
    | Except.ok page_buf =>
      match s.scan page_buf with
      | some index => Except.ok (some (page.start + index))
      | none => Process.scanGo p s rest

/-- `Process::scan_signature`. -/
def Process.scan_signature (p : Process) (signature : String) : Except ProcessError (Option Nat) :=
  match p.memory_pages false with
  | Except.error e => Except.error e
  | Except.ok pages => Process.scanGo p (Signature.new signature) pages

/-- The specification's description (§4.2) of a successful whole-process
scan: the first readable region whose bytes contain the pattern, reported
as `base + offset`. -/
def firstRegionMatch (p : Process) (s : Signature) (pages : List MapRange) : Option Nat :=
  pages.findSome? fun page =>
    match p.read_buf page.start page.size with
    | Except.ok bytes => (s.scan bytes).map fun index => page.start + index
    | Except.error _ => none

/-! ## Pointer kinds and values

`src/pointer.rs` is not among the provided source files; the types below
are modelled from the specification (§3 data model, §6 wire codes). -/

/-- Modelled from the spec: `PointerType` (src/pointer.rs is missing from
the sources) — the tagged enumeration `U8..String` with wire codes
`0..=10` in this order (§3, §6, B1). -/
inductive PointerType
  | U8
  | U16
  | U32
  | U64
  | I8
  | I16
  | I32
  | I64
  | F32
  | F64
  | StringType
deriving DecidableEq

/-- Modelled from the spec: the wire decoding `PointerType::from_u8`
(wire codes `0:U8 .. 10:String`; anything else is unknown). -/
def PointerType.from_u8 (v : Nat) : Option PointerType :=
  match v with
  | 0 => some PointerType.U8
  | 1 => some PointerType.U16
  | 2 => some PointerType.U32
  | 3 => some PointerType.U64
  | 4 => some PointerType.I8
  | 5 => some PointerType.I16
  | 6 => some PointerType.I32
  | 7 => some PointerType.I64
  | 8 => some PointerType.F32
  | 9 => some PointerType.F64
  | 10 => some PointerType.StringType
  | _ => none

/-- Modelled from the spec: `PointerValue` (src/pointer.rs is missing from
the sources) — a value of one `PointerType`.  Unsigned payloads are `Nat`,
signed payloads `Int`, floating-point payloads raw IEEE-754 bit patterns. -/
inductive PointerValue
  | U8 (v : Nat)
  | U16 (v : Nat)
  | U32 (v : Nat)
  | U64 (v : Nat)
  | I8 (v : Int)
  | I16 (v : Int)
  | I32 (v : Int)
  | I64 (v : Int)
  | F32 (v : Nat)
  | F64 (v : Nat)
  | StringVal (v : String)
deriving DecidableEq

/-- The declared kind of a stored value (P2: set at creation, never
changes). -/
def PointerValue.kind : PointerValue → PointerType
  | PointerValue.U8 _ => PointerType.U8
  | PointerValue.U16 _ => PointerType.U16
  | PointerValue.U32 _ => PointerType.U32
  | PointerValue.U64 _ => PointerType.U64
  | PointerValue.I8 _ => PointerType.I8
  | PointerValue.I16 _ => PointerType.I16
  | PointerValue.I32 _ => PointerType.I32
  | PointerValue.I64 _ => PointerType.I64
  | PointerValue.F32 _ => PointerType.F32
  | PointerValue.F64 _ => PointerType.F64
  | PointerValue.StringVal _ => PointerType.StringType

/-- The zero-initialised value of each declared kind, as in the `match` of
`push_pointer_path` (`0.0f32`/`0.0f64` have bit pattern `0`). -/
def zeroValue : PointerType → PointerValue
  | PointerType.U8 => PointerValue.U8 0
  | PointerType.U16 => PointerValue.U16 0
  | PointerType.U32 => PointerValue.U32 0
  | PointerType.U64 => PointerValue.U64 0
  | PointerType.I8 => PointerValue.I8 0
  | PointerType.I16 => PointerValue.I16 0
  | PointerType.I32 => PointerValue.I32 0
  | PointerType.I64 => PointerValue.I64 0
  | PointerType.F32 => PointerValue.F32 0
  | PointerType.F64 => PointerValue.F64 0
  | PointerType.StringType => PointerValue.StringVal ""

/-! ## Runtime data model (`runtime.rs`) -/

/-- An `f64` carried as its raw IEEE-754 bit pattern. -/
structure Float64Bits where
  bits : Nat
deriving DecidableEq

/-- `f64::is_nan` on the bit pattern: exponent field all ones and a
non-zero mantissa. -/
def Float64Bits.is_nan (x : Float64Bits) : Bool :=
  (x.bits >>> 52) % 2048 == 2047 && x.bits % 2 ^ 52 != 0

/-- `EnvironmentError` (runtime.rs). -/
inductive EnvironmentError
  | InvalidProcessName
  | InvalidModuleName
  | InvalidPointerPathId
  | InvalidPointerType
  | TypeMismatch
  | Utf8DecodeError
deriving DecidableEq

/-- A host `panic!` outcome of a host function (`.unwrap()` on an `Err`). -/
inductive HostPanic
  | panicked
deriving DecidableEq

/-- `PointerPath` (runtime.rs). -/
structure PointerPath where
  module_name : String
  offsets : List Int
  current : PointerValue
  old : PointerValue
deriving DecidableEq

/-- `FileSystem` (runtime/wasi/fs.rs): the table of optionally-open file
slots.  The slot payload is an opaque host file handle, modelled as `Nat`. -/
structure FileSystem where
  files : List (Option Nat)
deriving DecidableEq

/-- `FileSystem::new`. -/
def FileSystem.new : FileSystem := ⟨[]⟩

/-- `Environment` (runtime.rs).  `tick_rate` is in nanoseconds. -/
structure Environment where
  process_name : String
  pointer_paths : List PointerPath
  tick_rate : Nat
  process : Option Process
  fs : FileSystem

/-- `Environment::new`: default tick rate `1s / 60`. -/
def Environment.new : Environment :=
  { process_name := ""
    pointer_paths := []
    tick_rate := 1000000000 / 60
    process := none
    fs := FileSystem.new }

/-- `TimerState` (runtime.rs). -/
inductive TimerState
  | NotRunning
  | Running
  | Finished
deriving DecidableEq

/-- `TimerAction` (runtime.rs). -/
inductive TimerAction
  | Start
  | Split
  | Reset
deriving DecidableEq

/-- `Runtime` (runtime.rs): the mutable state carried across ticks.  The
wasm `Instance` is externalised into the `Guest` structure below. -/
structure Runtime where
  environment : Environment
  timer_state : TimerState
  is_loading_val : Option Bool
  game_time_val : Option Float64Bits

/-- The guest exports consulted during one tick, externalising the wasm
instance: `some v` means the export exists and returns `v` on this tick's
call, `none` means `instance.func(..)` fails (export absent).  `update` and
`disconnected` return nothing. -/
structure Guest where
  update : Option Unit
  should_start : Option Int
  is_loading : Option Int
  game_time : Option Float64Bits
  should_split : Option Int
  should_reset : Option Int
  disconnected : Option Unit

/-- A guest entry point invoked by the driver (for the per-tick call
trace). -/
inductive GuestCall
  | update
  | should_start
  | is_loading
  | game_time
  | should_split
  | should_reset
  | disconnected
deriving DecidableEq

/-- `Runtime::run_script`: invoke `update` if exported, then consult the
predicates §4.5 prescribes for the current timer state, returning at the
first nonzero `should_*`.  Also returns the ordered trace of guest entry
points invoked during the tick. -/
def Runtime.run_script (rt : Runtime) (g : Guest) :
    Runtime × Option TimerAction × List GuestCall :=
  let tr0 : List GuestCall :=
    match g.update with
    | some _ => [GuestCall.update]
    | none => []
  match rt.timer_state with
  | TimerState.NotRunning =>
    match g.should_start with
    | some ret_val =>
      if ret_val ≠ 0 then (rt, some TimerAction.Start, tr0 ++ [GuestCall.should_start])
      else (rt, none, tr0 ++ [GuestCall.should_start])
    | none => (rt, none, tr0)
  | TimerState.Running =>
    let st1 :=
      match g.is_loading with
      | some ret_val =>
        ({ rt with is_loading_val := some (ret_val != 0) }, tr0 ++ [GuestCall.is_loading])
      | none => (rt, tr0)
    let st2 :=
      match g.game_time with
      | some ret_val =>
        ({ st1.1 with game_time_val := if ret_val.is_nan then none else some ret_val },
          st1.2 ++ [GuestCall.game_time])
      | none => st1
    match g.should_split with
    | some ret_val =>
      if ret_val ≠ 0 then (st2.1, some TimerAction.Split, st2.2 ++ [GuestCall.should_split])
      else
        match g.should_reset with
        | some r2 =>
          if r2 ≠ 0 then
            (st2.1, some TimerAction.Reset,
              st2.2 ++ [GuestCall.should_split, GuestCall.should_reset])
          else (st2.1, none, st2.2 ++ [GuestCall.should_split, GuestCall.should_reset])
        | none => (st2.1, none, st2.2 ++ [GuestCall.should_split])
    | none =>
      match g.should_reset with
      | some r2 =>
        if r2 ≠ 0 then (st2.1, some TimerAction.Reset, st2.2 ++ [GuestCall.should_reset])
        else (st2.1, none, st2.2 ++ [GuestCall.should_reset])
      | none => (st2.1, none, st2.2)
  | TimerState.Finished =>
    match g.should_reset with
    | some ret_val =>
      if ret_val ≠ 0 then (rt, some TimerAction.Reset, tr0 ++ [GuestCall.should_reset])
      else (rt, none, tr0 ++ [GuestCall.should_reset])
    | none => (rt, none, tr0)

/-- The specification's §4.5 ordering of the per-state predicates and their
actions, as an ordered list to be consulted front to back. -/
def predicateOrder (st : TimerState) (g : Guest) : List (Option Int × TimerAction) :=
  match st with
  | TimerState.NotRunning => [(g.should_start, TimerAction.Start)]
  | TimerState.Running =>
    [(g.should_split, TimerAction.Split), (g.should_reset, TimerAction.Reset)]
  | TimerState.Finished => [(g.should_reset, TimerAction.Reset)]

/-- The specification's §4.5 wording — "Only the first action detected in
this order is returned for the tick": the first exported predicate in the
order that returns nonzero. -/
def specFirstAction (st : TimerState) (g : Guest) : Option TimerAction :=
  (predicateOrder st g).findSome? fun pr =>
    match pr.1 with
    | some v => if v ≠ 0 then some pr.2 else none
    | none => none

set_option linter.unusedVariables false in
/-- `Runtime::update_values` — the entire body of the source function is
commented out (only the `Ok(())` at the end is live code): the active code
reads no memory, changes nothing, and always succeeds.  The error type of
the source's `Result<(), Box<Error>>` is opaque, modelled as `Unit`. -/
def Runtime.update_values (rt : Runtime) (just_connected : Bool) : Except Unit Runtime :=
  Except.ok rt

/-- The external inputs of one `step`: the result of the
`Process::with_name(&env.process_name)` hook attempt. -/
structure StepWorld where
  with_name : Option Process

/-- The hooked half of `Runtime::step`: run `update_values`; on failure
clear `env.process` and return no action — the `disconnected` guest call in
this branch is commented out in the source, so the branch invokes nothing —
otherwise run the guest script. -/
def Runtime.stepHooked (rt : Runtime) (g : Guest) (just_connected : Bool) :
    Runtime × Option TimerAction × List GuestCall :=
  match rt.update_values just_connected with
  | Except.error _ =>
    ({ rt with environment := { rt.environment with process := none } }, none, [])
  | Except.ok rt' => rt'.run_script g

/-- `Runtime::step`: if no process is hooked, attempt to hook by name
(failure returns no action); then update values and run the guest script. -/
def Runtime.step (rt : Runtime) (g : Guest) (w : StepWorld) :
    Runtime × Option TimerAction × List GuestCall :=
  match rt.environment.process with
  | none =>
    match w.with_name with
    | none => (rt, none, [])
    | some p =>
      Runtime.stepHooked
        { rt with environment := { rt.environment with process := some p } } g true
  | some _ => Runtime.stepHooked rt g false

/-! ## The commented-out body of `update_values`

The source of `Runtime::update_values` contains, as a comment block, the
value-update implementation the specification describes (module base,
wrapping pointer walk at the process bitness, little-endian leaf read into
`old`, then clone-or-swap).  It is embedded below to relate the
specification's intent to what the live code actually does. -/

/-- Two's-complement signed value of the low `w` bits. -/
def toSigned (w : Nat) (x : Nat) : Int :=
  let m := x % 2 ^ w
  if m < 2 ^ (w - 1) then (m : Int) else (m : Int) - 2 ^ w

/-- `(address as Offset).wrapping_add(offset) as u64`: wrapping signed
addition at width 64. -/
def wrapAdd64 (address : Nat) (offset : Int) : Nat :=
  (((address : Int) + offset).emod (2 ^ 64)).toNat

/-- `(address as i32).wrapping_add(offset as i32) as u64`: truncate both to
32 bits, add with wraparound, then sign-extend the 32-bit result to 64
bits. -/
def wrapAdd32 (address : Nat) (offset : Int) : Nat :=
  let sum := toSigned 32 address + toSigned 32 (offset.emod (2 ^ 32)).toNat
  let wrapped := toSigned 32 (sum.emod (2 ^ 32)).toNat
  (wrapped.emod (2 ^ 64)).toNat

/-- The pointer walk of the commented-out `update_values` body:
add each offset with wrapping arithmetic at the process's pointer width,
dereferencing a pointer-sized little-endian value between consecutive
offsets (`offsets.peek().is_some()`). -/
def walkOffsets (p : Process) (w64 : Bool) : Nat → List Int → Except ProcessError Nat
  | address, [] => Except.ok address
  | address, offset :: rest =>
    let address' := if w64 then wrapAdd64 address offset else wrapAdd32 address offset
    match rest with
    | [] => Except.ok address'
    | _ :: _ =>
      match p.readNum address' (if w64 then 8 else 4) with
      | Except.error e => Except.error e
      | Except.ok v => walkOffsets p w64 v rest

/-- The typed leaf read of the commented-out `update_values` body, selected
by the declared kind of the stored value; `String` leaves are
`unimplemented!()` (a panic, modelled as `none`). -/
def readLeaf (p : Process) (kind : PointerType) (address : Nat) : Option PointerValue :=
  match kind with
  | PointerType.U8 => (p.readNum address 1).toOption.map PointerValue.U8
  | PointerType.U16 => (p.readNum address 2).toOption.map PointerValue.U16
  | PointerType.U32 => (p.readNum address 4).toOption.map PointerValue.U32
  | PointerType.U64 => (p.readNum address 8).toOption.map PointerValue.U64
  | PointerType.I8 => (p.readNum address 1).toOption.map fun v => PointerValue.I8 (toSigned 8 v)
  | PointerType.I16 => (p.readNum address 2).toOption.map fun v => PointerValue.I16 (toSigned 16 v)
  | PointerType.I32 => (p.readNum address 4).toOption.map fun v => PointerValue.I32 (toSigned 32 v)
  | PointerType.I64 => (p.readNum address 8).toOption.map fun v => PointerValue.I64 (toSigned 64 v)
  | PointerType.F32 => (p.readNum address 4).toOption.map PointerValue.F32
  | PointerType.F64 => (p.readNum address 8).toOption.map PointerValue.F64
  | PointerType.StringType => none

/-- One pointer path's update in the commented-out body: resolve the base
(empty module name ⇒ absolute, base `0`), walk the offsets, read the typed
leaf into `old`. -/
def updatePath (p : Process) (pp : PointerPath) : Option PointerPath :=
  match (if pp.module_name ≠ "" then (p.module_address pp.module_name).toOption else some 0) with
  | none => none
  | some base =>
    match (walkOffsets p p.is_64bit base pp.offsets).toOption with
    | none => none
    | some address =>
      match readLeaf p pp.old.kind address with
      | none => none
      | some v => some { pp with old := v }

/-- The commented-out `update_values` body as a whole: read every path's
new value into `old`; then, on the first tick after connecting, clone `old`
into `current`, and on every later tick swap `current` and `old`. -/
def update_values_commented (env : Environment) (just_connected : Bool) : Option Environment :=
  match env.process with
  | none => none
  | some p =>
    match env.pointer_paths.mapM (updatePath p) with
    | none => none
    | some paths =>
      let paths' :=
        if just_connected then paths.map (fun pp => { pp with current := pp.old })
        else paths.map (fun pp => { pp with current := pp.old, old := pp.current })
      some { env with pointer_paths := paths' }

/-! ## Host functions (`runtime.rs`, wasmer host imports)

String unmarshalling from guest linear memory (`read_string`) is abstracted:
each host function receives already-decoded strings; a zero-length guest
string decodes to `""`. -/

namespace Host

/-- Host `scan_signature`: with no hooked process return `0`; with a hooked
process run the process-level scan and `.unwrap()` the result — a failed
scan is a panic (the source marks the spot `TODO: Don't panic`), a
successful scan returns the address or `0` for not-found. -/
def scan_signature (env : Environment) (signature : String) : Except HostPanic Nat :=
  match env.process with
  | none => Except.ok 0
  | some process =>
    match process.scan_signature signature with
    | Except.error _ => Except.error HostPanic.panicked
    | Except.ok address => Except.ok (address.getD 0)

/-- Host `read_into_buf`: copy `buf_len` bytes of target memory at
`address` into guest memory at `buf`.  Slicing guest memory out of bounds
panics; with no hooked process the body is skipped (silent no-op); with a
hooked process a failed target read is `.unwrap()`ed — a panic (`TODO:
Don't panic`). -/
def read_into_buf (env : Environment) (memory : List Nat)
    (address buf buf_len : Nat) : Except HostPanic (List Nat) :=
  if buf + buf_len ≤ memory.length then
    match env.process with
    | none => Except.ok memory
    | some process =>
      match process.read_buf address buf_len with
      | Except.error _ => Except.error HostPanic.panicked
      | Except.ok byte_buf =>
        Except.ok (memory.take buf ++ byte_buf ++ memory.drop (buf + buf_len))
  else Except.error HostPanic.panicked

/-- `get_val` (runtime.rs): look the path up by id, pick `current` or `old`
by the 32-bit flag (`current != 0`), and convert; a missing id fails with
`InvalidPointerPathId`, a failed conversion with `TypeMismatch`.  (In the
source both failures surface through `.unwrap()`/`?` as a panic carrying
exactly these error values.) -/
def get_val {T : Type} (env : Environment) (pointer_path_id : Nat) (current : Int)
    (convert : PointerValue → Option T) : Except EnvironmentError T :=
  match env.pointer_paths.get? pointer_path_id with
  | none => Except.error EnvironmentError.InvalidPointerPathId
  | some pointer_path =>
    match convert (if current ≠ 0 then pointer_path.current else pointer_path.old) with
    | none => Except.error EnvironmentError.TypeMismatch
    | some v => Except.ok v

/-- Host `get_u8`. -/
def get_u8 (env : Environment) (id : Nat) (current : Int) : Except EnvironmentError Nat :=
  get_val env id current fun v =>
    match v with
    | PointerValue.U8 v => some v
    | _ => none

/-- Host `get_u16`. -/
def get_u16 (env : Environment) (id : Nat) (current : Int) : Except EnvironmentError Nat :=
  get_val env id current fun v =>
    match v with
    | PointerValue.U16 v => some v
    | _ => none

/-- Host `get_u32`. -/
def get_u32 (env : Environment) (id : Nat) (current : Int) : Except EnvironmentError Nat :=
  get_val env id current fun v =>
    match v with
    | PointerValue.U32 v => some v
    | _ => none

/-- Host `get_u64`. -/
def get_u64 (env : Environment) (id : Nat) (current : Int) : Except EnvironmentError Nat :=
  get_val env id current fun v =>
    match v with
    | PointerValue.U64 v => some v
    | _ => none

/-- Host `get_i8` (the `i8` payload is returned sign-extended as `i32`,
value-preserving). -/
def get_i8 (env : Environment) (id : Nat) (current : Int) : Except EnvironmentError Int :=
  get_val env id current fun v =>
    match v with
    | PointerValue.I8 v => some v
    | _ => none

/-- Host `get_i16`. -/
def get_i16 (env : Environment) (id : Nat) (current : Int) : Except EnvironmentError Int :=
  get_val env id current fun v =>
    match v with
    | PointerValue.I16 v => some v
    | _ => none

/-- Host `get_i32`. -/
def get_i32 (env : Environment) (id : Nat) (current : Int) : Except EnvironmentError Int :=
  get_val env id current fun v =>
    match v with
    | PointerValue.I32 v => some v
    | _ => none

/-- Host `get_i64`. -/
def get_i64 (env : Environment) (id : Nat) (current : Int) : Except EnvironmentError Int :=
  get_val env id current fun v =>
    match v with
    | PointerValue.I64 v => some v
    | _ => none

/-- Host `get_f32` (raw bit pattern). -/
def get_f32 (env : Environment) (id : Nat) (current : Int) : Except EnvironmentError Nat :=
  get_val env id current fun v =>
    match v with
    | PointerValue.F32 v => some v
    | _ => none

/-- Host `get_f64` (raw bit pattern). -/
def get_f64 (env : Environment) (id : Nat) (current : Int) : Except EnvironmentError Nat :=
  get_val env id current fun v =>
    match v with
    | PointerValue.F64 v => some v
    | _ => none

/-- Host `push_pointer_path`: decode the pointer type (an unknown wire code
fails with `InvalidPointerType`), zero-initialise the typed value, and
append a path with no offsets, `old` a clone of `current`; the returned id
is the pre-push length of the vector. -/
def push_pointer_path (env : Environment) (module_name : String)
    (pointer_type : Nat) : Except EnvironmentError (Environment × Nat) :=
  match PointerType.from_u8 pointer_type with
  | none => Except.error EnvironmentError.InvalidPointerType
  | some pt =>
    let current := zeroValue pt
    let id := env.pointer_paths.length
    Except.ok
      ({ env with
          pointer_paths := env.pointer_paths ++
            [{ module_name := module_name, offsets := [], old := current, current := current }] },
        id)

end Host

/-! ## WASI filesystem shim (`runtime/wasi/fs.rs`) -/

/-- `__WASI_ESUCCESS` (runtime/wasi/types.rs is not among the provided
source files; this is the standard WASI errno value `0`). -/
def WASI_ESUCCESS : Nat := 0

/-- `__WASI_EBADF` (standard WASI errno value `8`). -/
def WASI_EBADF : Nat := 8

/-- `FileSystem::fd_close`: `(fd as usize).checked_sub(4)` and a table
lookup; a hit clears the slot (even if it was already empty) and reports
success; `fd < 4` or an out-of-table index reports `EBADF`. -/
def FileSystem.fd_close (fs : FileSystem) (fd : Nat) : FileSystem × Nat :=
  if 4 ≤ fd ∧ fd - 4 < fs.files.length then
    ({ files := fs.files.set (fd - 4) none }, WASI_ESUCCESS)
  else (fs, WASI_EBADF)

/-- The slot allocation of `FileSystem::path_open`: reuse the first empty
slot, else append; the guest-visible descriptor is the slot index plus 4. -/
def FileSystem.path_open_alloc (fs : FileSystem) (file : Nat) : FileSystem × Nat :=
  match fs.files.findIdx? Option.isNone with
  | some i => ({ files := fs.files.set i (some file) }, i + 4)
  | none => ({ files := fs.files ++ [some file] }, fs.files.length + 4)

/-! ## Concrete processes and environments used by the witnesses -/

/-- A process with two readable regions whose first region read fails
(guarded page) while the second contains `CA FE`. -/
def procSkipEx : Process :=
  { maps := some [⟨0x1000, 2, true⟩, ⟨0x2000, 2, true⟩]
    readMem := fun address len =>
      if address = 0x2000 ∧ len = 2 then some [0xCA, 0xFE] else none
    modules := []
    is_64bit := true }

/-- A process with the same two regions, both readable without error; only
the second contains `CA FE`. -/
def procOkEx : Process :=
  { maps := some [⟨0x1000, 2, true⟩, ⟨0x2000, 2, true⟩]
    readMem := fun address len =>
      if address = 0x2000 then some [0xCA, 0xFE] else some (List.replicate len 0)
    modules := []
    is_64bit := true }

/-- A process whose every memory byte reads as `7`. -/
def procC1 : Process :=
  { maps := some []
    readMem := fun _ len => some (List.replicate len 7)
    modules := []
    is_64bit := true }

/-- A hooked environment with a single absolute `U8` pointer path with one
offset `0`, still holding its zero-initialised values. -/
def envC1 : Environment :=
  { Environment.new with
      process := some procC1
      pointer_paths :=
        [{ module_name := "", offsets := [0], current := PointerValue.U8 0,
           old := PointerValue.U8 0 }] }

/-- A hooked environment whose process read always fails mid-scan. -/
def envScanFail : Environment :=
  { Environment.new with process := some procSkipEx }

/-- An environment with one `U8` pointer path holding `current = 7`,
`old = 5`. -/
def envGet : Environment :=
  { Environment.new with
      pointer_paths :=
        [{ module_name := "", offsets := [], current := PointerValue.U8 7,
           old := PointerValue.U8 5 }] }

/-- A runtime in the `Running` timer state with a fresh environment. -/
def rtRunning : Runtime :=
  { environment := Environment.new
    timer_state := TimerState.Running
    is_loading_val := none
    game_time_val := none }

/-- A guest whose `should_split` and `should_reset` both return nonzero. -/
def guestBoth : Guest :=
  { update := none
    should_start := none
    is_loading := none
    game_time := none
    should_split := some 1
    should_reset := some 1
    disconnected := none }

/-! ## Theorems -/
private lemma getD_set_self (A : List Nat) (i v : Nat) (h : i < A.length) :
    (A.set i v).getD i 0 = v := by
  simp [List.getD_eq_getElem?_getD, List.getElem?_set_self, h]

private lemma getD_set_ne (A : List Nat) (i j v : Nat) (h : i ≠ j) :
    (A.set i v).getD j 0 = A.getD j 0 := by
  simp [List.getD_eq_getElem?_getD, List.getElem?_set_ne, h]

theorem skipLoop_inv (P : List (Nat × Bool)) (e : Nat) :
    ∀ (l : List (Nat × Bool)) (i : Nat) (A : List Nat) (u : Nat),
    (∀ k, k < l.length → l.getD k (0, false) = P.getD (i + k) (0, false)) →
    i + l.length ≤ e →
    (∀ k, k < l.length → (l.getD k (0, false)).1 < 256) →
    A.length = 256 →
    InvU P e i u →
    (∀ c, c < 256 → InvA P e i A c) →
    (skipLoop e l i A u).1.length = 256 ∧
      InvU P e (i + l.length) (skipLoop e l i A u).2 ∧
      (∀ c, c < 256 → InvA P e (i + l.length) (skipLoop e l i A u).1 c) := by
  intro l
  induction l with
  | nil =>
    intro i A u _ _ _ hA hu hAc
    simpa [skipLoop] using ⟨hA, hu, hAc⟩
  | cons hd rest ih =>
    intro i A u hsl hle hb hA hu hAc
    obtain ⟨byte, m⟩ := hd
    have hhd : (byte, m) = P.getD i (0, false) := by
      simpa using hsl 0 (by simp)
    have hmaski : maskAt P i = m := by
      unfold maskAt
      rw [← hhd]
    have hbytei : byteAt P i = byte := by
      unfold byteAt
      rw [← hhd]
    have hsl' : ∀ k, k < rest.length → rest.getD k (0, false) = P.getD (i + 1 + k) (0, false) := by
      intro k hk
      have := hsl (k + 1) (by simpa using Nat.succ_lt_succ hk)
      simpa [Nat.add_assoc, Nat.add_comm 1 k] using this
    have hle' : i + 1 + rest.length ≤ e := by
      simp only [List.length_cons] at hle
      omega
    have hb' : ∀ k, k < rest.length → (rest.getD k (0, false)).1 < 256 := by
      intro k hk
      have := hb (k + 1) (by simpa using Nat.succ_lt_succ hk)
      simpa using this
    have hie : i < e := by
      simp only [List.length_cons] at hle
      omega
    cases m with
    | true =>
      -- wildcard byte: `unknown` becomes `e - i`, table unchanged
      have hu' : InvU P e (i + 1) (e - i) := by
        refine Or.inr ⟨by omega, Nat.sub_le e i, ?_⟩
        intro j hj _
        have : j ≤ i := by omega
        exact Nat.sub_le_sub_left this e
      have hAc' : ∀ c, c < 256 → InvA P e (i + 1) A c := by
        intro c hc
        rcases hAc c hc with ⟨h0, hrest⟩ | ⟨h1, h2, hrest⟩
        · refine Or.inl ⟨h0, ?_⟩
          intro j hj hmj
          rcases Nat.lt_succ_iff_lt_or_eq.mp hj with hj' | rfl
          · exact hrest j hj' hmj
          · rw [hmaski] at hmj; cases hmj
        · refine Or.inr ⟨h1, h2, ?_⟩
          intro j hj hmj hbj
          rcases Nat.lt_succ_iff_lt_or_eq.mp hj with hj' | rfl
          · exact hrest j hj' hmj hbj
          · rw [hmaski] at hmj; cases hmj
      have := ih (i + 1) A (e - i) hsl' hle' hb' hA hu' hAc'
      simpa [skipLoop, Nat.add_assoc, Nat.add_comm 1 rest.length] using this
    | false =>
      -- concrete byte: table entry for `byte` becomes `e - i`
      have hbyte256 : byte < 256 := by
        have := hb 0 (by simp)
        simpa using this
      have hu' : InvU P e (i + 1) u := by
        rcases hu with ⟨h0, hrest⟩ | ⟨h1, h2, hrest⟩
        · refine Or.inl ⟨h0, ?_⟩
          intro j hj
          rcases Nat.lt_succ_iff_lt_or_eq.mp hj with hj' | rfl
          · exact hrest j hj'
          · exact hmaski
        · refine Or.inr ⟨h1, h2, ?_⟩
          intro j hj hmj
          rcases Nat.lt_succ_iff_lt_or_eq.mp hj with hj' | rfl
          · exact hrest j hj' hmj
          · rw [hmaski] at hmj; cases hmj
      have hAc' : ∀ c, c < 256 → InvA P e (i + 1) (A.set byte (e - i)) c := by
        intro c hc
        by_cases hcb : c = byte
        · subst hcb
          refine Or.inr ⟨?_, ?_, ?_⟩
          · rw [getD_set_self A c (e - i) (by omega)]; omega
          · rw [getD_set_self A c (e - i) (by omega)]; exact Nat.sub_le e i
          · intro j hj _ _
            rw [getD_set_self A c (e - i) (by omega)]
            have : j ≤ i := by omega
            exact Nat.sub_le_sub_left this e
        · have hgd : (A.set byte (e - i)).getD c 0 = A.getD c 0 :=
            getD_set_ne A byte c (e - i) (fun h => hcb h.symm)
          rcases hAc c hc with ⟨h0, hrest⟩ | ⟨h1, h2, hrest⟩
          · refine Or.inl ⟨by rw [hgd]; exact h0, ?_⟩
            intro j hj hmj
            rcases Nat.lt_succ_iff_lt_or_eq.mp hj with hj' | rfl
            · exact hrest j hj' hmj
            · rw [hbytei]; exact fun h => hcb h.symm
          · refine Or.inr ⟨by rw [hgd]; exact h1, by rw [hgd]; exact h2, ?_⟩
            intro j hj hmj hbj
            rw [hgd]
            rcases Nat.lt_succ_iff_lt_or_eq.mp hj with hj' | rfl
            · exact hrest j hj' hmj hbj
            · rw [hbytei] at hbj; exact absurd hbj.symm hcb
      have := ih (i + 1) (A.set byte (e - i)) u hsl' hle' hb'
        (by rw [List.length_set]; exact hA) hu' hAc'
      simpa [skipLoop, Nat.add_assoc, Nat.add_comm 1 rest.length] using this

lemma sigNibble_lt (b v : Nat) (h : sigNibble b = some v) : v < 256 := by
  unfold sigNibble at h
  split_ifs at h <;> simp only [Option.some.injEq] at h <;> omega

lemma sigPairs_fst_lt (ns : List Nat) (hns : ∀ v ∈ ns, v < 256) :
    ∀ x ∈ sigPairs ns, x.1 < 256 := by
  induction ns using sigPairs.induct with
  | case1 a b rest ih =>
    intro x hx
    simp only [sigPairs, List.mem_cons] at hx
    rcases hx with rfl | hx
    · have hb : b < 256 := hns b (by simp)
      exact Nat.or_lt_two_pow (n := 8) (Nat.mod_lt _ (by omega)) hb
    · exact ih (fun v hv => hns v (by simp [hv])) x hx
  | case2 ns h1 =>
    intro x hx
    cases ns with
    | nil =>
      rw [show sigPairs [] = ([] : List (Nat × Bool)) from rfl] at hx
      cases hx
    | cons a tl =>
      cases tl with
      | nil =>
        rw [show sigPairs [a] = ([] : List (Nat × Bool)) from rfl] at hx
        cases hx
      | cons b tl' => exact absurd rfl (h1 a b tl')

theorem skipSafe_of_parts (pairs : List (Nat × Bool)) (e0 u0 : Nat) (s : Signature)
    (hbytes : s.bytes = pairs.map Prod.fst)
    (hmask : s.mask = pairs.map Prod.snd)
    (he0 : e0 = pairs.length - 1)
    (hu0 : u0 = if (skipLoop e0 (pairs.take e0) 0 (List.replicate 256 0) 0).2 = 0
        then pairs.length else (skipLoop e0 (pairs.take e0) 0 (List.replicate 256 0) 0).2)
    (hskip : s.skip_offsets =
      (skipLoop e0 (pairs.take e0) 0 (List.replicate 256 0) 0).1.map
        (fun offset => if u0 < offset ∨ offset = 0 then u0 else offset))
    (hb256 : ∀ x ∈ pairs, x.1 < 256)
    (hne : pairs ≠ []) : SkipSafe s := by
  subst he0
  set n := pairs.length with hn
  set e := n - 1 with he
  have hn1 : 1 ≤ n := by
    rw [hn]
    exact List.length_pos.mpr hne
  have htklen : (pairs.take e).length = e := by
    rw [List.length_take]
    omega
  have harg1 : ∀ k, k < (pairs.take e).length →
      (pairs.take e).getD k (0, false) = pairs.getD (0 + k) (0, false) := by
    intro k hk
    simp only [Nat.zero_add]
    have hk' : k < pairs.length := by
      rw [List.length_take] at hk
      omega
    rw [List.getD_eq_getElem _ _ hk, List.getD_eq_getElem _ _ hk']
    simp [List.getElem_take]
  have harg2 : 0 + (pairs.take e).length ≤ e := by
    rw [List.length_take]
    omega
  have harg3 : ∀ k, k < (pairs.take e).length → ((pairs.take e).getD k (0, false)).1 < 256 := by
    intro k hk
    rw [List.getD_eq_getElem _ _ hk]
    refine hb256 _ ?_
    rw [List.getElem_take]
    exact List.getElem_mem _
  have harg4 : (List.replicate 256 (0 : Nat)).length = 256 := by
    rw [List.length_replicate]
  have harg5 : InvU pairs e 0 0 :=
    Or.inl ⟨rfl, fun j hj => absurd hj (Nat.not_lt_zero j)⟩
  have harg6 : ∀ c, c < 256 → InvA pairs e 0 (List.replicate 256 0) c := by
    intro c hc
    refine Or.inl ⟨?_, fun j hj => absurd hj (Nat.not_lt_zero j)⟩
    have hc' : c < (List.replicate 256 (0 : Nat)).length := by
      rw [List.length_replicate]
      exact hc
    rw [List.getD_eq_getElem _ _ hc', List.getElem_replicate]
  have hinv := skipLoop_inv pairs e (pairs.take e) 0 (List.replicate 256 0) 0
    harg1 harg2 harg3 harg4 harg5 harg6
  rw [htklen] at hinv
  simp only [Nat.zero_add] at hinv
  obtain ⟨hAlen, hIU, hIA⟩ := hinv
  set p := skipLoop e (pairs.take e) 0 (List.replicate 256 0) 0 with hp
  have hblen : s.bytes.length = n := by
    rw [hbytes, List.length_map]
  -- facts about the fixed-up `unknown`
  have hU1 : 1 ≤ u0 := by
    rcases hIU with ⟨h0, _⟩ | ⟨h1, _, _⟩
    · rw [hu0, if_pos h0]
      omega
    · rw [hu0, if_neg (by omega)]
      exact h1
  have hU2 : u0 ≤ n := by
    rcases hIU with ⟨h0, _⟩ | ⟨_, h2, _⟩
    · rw [hu0, if_pos h0]
    · rw [hu0, if_neg (by omega)]
      omega
  have hU3 : ∀ t, 1 ≤ t → t < u0 → maskAt pairs (e - t) = false := by
    intro t ht1 ht2
    rcases hIU with ⟨h0, hall⟩ | ⟨h1, h2, hbound⟩
    · rw [hu0, if_pos h0] at ht2
      exact hall (e - t) (by omega)
    · rw [hu0, if_neg (by omega)] at ht2
      by_contra hmt
      have hmt' : maskAt pairs (e - t) = true := by
        simpa using hmt
      have hb2 := hbound (e - t) (by omega) hmt'
      omega
  -- translation from `pairs` indices to the signature's `bytes`/`mask`
  have hmaskD : ∀ j, j < n → s.mask.getD j false = maskAt pairs j := by
    intro j hj
    have hj' : j < (pairs.map Prod.snd).length := by
      rw [List.length_map]
      omega
    have hj2 : j < pairs.length := by omega
    rw [hmask, List.getD_eq_getElem _ _ hj', List.getElem_map]
    unfold maskAt
    rw [List.getD_eq_getElem _ _ hj2]
  have hbyteD : ∀ j, j < n → s.bytes.getD j 0 = byteAt pairs j := by
    intro j hj
    have hj' : j < (pairs.map Prod.fst).length := by
      rw [List.length_map]
      omega
    have hj2 : j < pairs.length := by omega
    rw [hbytes, List.getD_eq_getElem _ _ hj', List.getElem_map]
    unfold byteAt
    rw [List.getD_eq_getElem _ _ hj2]
  intro c hc
  have hskipc : s.skip_offsets.getD c 0 =
      (if u0 < p.1.getD c 0 ∨ p.1.getD c 0 = 0 then u0 else p.1.getD c 0) := by
    rw [hskip]
    have hc1 : c < (p.1.map
        (fun offset => if u0 < offset ∨ offset = 0 then u0 else offset)).length := by
      rw [List.length_map, hAlen]
      exact hc
    have hc2 : c < p.1.length := by
      rw [hAlen]
      exact hc
    rw [List.getD_eq_getElem _ _ hc1, List.getElem_map, List.getD_eq_getElem _ _ hc2]
  rcases hIA c hc with ⟨h0, hnone⟩ | ⟨h1, h2, hmin⟩
  · -- the table entry was never written: fixed up to `unknown`
    rw [hskipc, if_pos (Or.inr h0)]
    refine ⟨hU1, by omega, ?_⟩
    intro t ht1 ht2
    rw [hblen, hmaskD _ (by omega), hbyteD _ (by omega)]
    refine ⟨hU3 t ht1 ht2, ?_⟩
    exact hnone (e - t) (by omega) (hU3 t ht1 ht2)
  · by_cases hlt : u0 < p.1.getD c 0
    · rw [hskipc, if_pos (Or.inl hlt)]
      refine ⟨hU1, by omega, ?_⟩
      intro t ht1 ht2
      rw [hblen, hmaskD _ (by omega), hbyteD _ (by omega)]
      refine ⟨hU3 t ht1 ht2, ?_⟩
      intro hbc
      have := hmin (e - t) (by omega) (hU3 t ht1 ht2) hbc
      omega
    · rw [hskipc, if_neg (by omega)]
      refine ⟨h1, by omega, ?_⟩
      intro t ht1 ht2
      have htu : t < u0 := by omega
      rw [hblen, hmaskD _ (by omega), hbyteD _ (by omega)]
      refine ⟨hU3 t ht1 htu, ?_⟩
      intro hbc
      have := hmin (e - t) (by omega) (hU3 t ht1 htu) hbc
      omega

theorem newBytes_skipSafe (l : List Nat)
    (hne : (Signature.newBytes l).bytes ≠ []) : SkipSafe (Signature.newBytes l) := by
  have hpne : sigPairs (l.filterMap sigNibble) ≠ [] := by
    intro h
    apply hne
    show (sigPairs (l.filterMap sigNibble)).map Prod.fst = []
    rw [h]
    rfl
  refine skipSafe_of_parts (sigPairs (l.filterMap sigNibble))
    (((sigPairs (l.filterMap sigNibble)).map Prod.fst).length - 1) _
    (Signature.newBytes l) rfl rfl ?_ ?_ rfl ?_ hpne
  · rw [List.length_map]
  · simp only [List.length_map]
  · refine sigPairs_fst_lt _ ?_
    intro v hv
    simp only [List.mem_filterMap] at hv
    obtain ⟨a, _, ha⟩ := hv
    exact sigNibble_lt a v ha

lemma newBytes_mask_length (l : List Nat) :
    (Signature.newBytes l).mask.length = (Signature.newBytes l).bytes.length := by
  show ((sigPairs (l.filterMap sigNibble)).map Prod.snd).length =
    ((sigPairs (l.filterMap sigNibble)).map Prod.fst).length
  rw [List.length_map, List.length_map]

lemma newBytes_bytes_lt (l : List Nat) :
    ∀ b ∈ (Signature.newBytes l).bytes, b < 256 := by
  intro b hb
  have hb' : b ∈ (sigPairs (l.filterMap sigNibble)).map Prod.fst := hb
  simp only [List.mem_map] at hb'
  obtain ⟨x, hx, rfl⟩ := hb'
  refine sigPairs_fst_lt _ ?_ x hx
  intro v hv
  simp only [List.mem_filterMap] at hv
  obtain ⟨a, _, ha⟩ := hv
  exact sigNibble_lt a v ha

lemma windowMatch_iff (s : Signature) (buf : List Nat) (current : Nat)
    (hml : s.mask.length = s.bytes.length)
    (hc : current + s.bytes.length ≤ buf.length) :
    s.windowMatch buf current = true ↔
      ∀ j < s.bytes.length,
        s.mask.getD j false = true ∨ s.bytes.getD j 0 = buf.getD (current + j) 0 := by
  have hdl : (buf.drop current).length = buf.length - current := List.length_drop current buf
  have hz1 : ((buf.drop current).zip s.bytes).length = s.bytes.length := by
    rw [List.length_zip, hdl]
    omega
  have hz2 : (((buf.drop current).zip s.bytes).zip s.mask).length = s.bytes.length := by
    rw [List.length_zip, hz1, hml]
    omega
  have hget : ∀ j, (hj : j < s.bytes.length) →
      (((buf.drop current).zip s.bytes).zip s.mask).get ⟨j, by rw [hz2]; exact hj⟩ =
        ((buf.getD (current + j) 0, s.bytes.getD j 0), s.mask.getD j false) := by
    intro j hj
    have hjb : j < buf.length - current := by omega
    have hj2 : current + j < buf.length := by omega
    have hjm : j < s.mask.length := by rw [hml]; exact hj
    simp only [List.get_eq_getElem]
    rw [List.getElem_zip, List.getElem_zip, List.getElem_drop]
    rw [List.getD_eq_getElem _ _ hj2, List.getD_eq_getElem _ _ hj,
      List.getD_eq_getElem _ _ hjm]
  unfold Signature.windowMatch
  rw [List.all_eq_true]
  constructor
  · intro hall j hj
    have hmem : ((buf.getD (current + j) 0, s.bytes.getD j 0), s.mask.getD j false) ∈
        ((buf.drop current).zip s.bytes).zip s.mask := by
      rw [← hget j hj]
      exact List.get_mem _ _ _
    have := hall _ hmem
    simp only [Bool.or_eq_true, beq_iff_eq] at this
    rcases this with h | h
    · exact Or.inr h.symm
    · exact Or.inl h
  · intro hj x hx
    obtain ⟨j, hjlen, hxe⟩ := List.mem_iff_getElem.mp hx
    have hjn : j < s.bytes.length := by rw [hz2] at hjlen; exact hjlen
    have hx2 : x = ((buf.getD (current + j) 0, s.bytes.getD j 0), s.mask.getD j false) := by
      rw [← hxe, ← hget j hjn]
      simp only [List.get_eq_getElem]
    rw [hx2]
    simp only [Bool.or_eq_true, beq_iff_eq]
    rcases hj j hjn with h | h
    · exact Or.inr h
    · exact Or.inl h.symm

theorem scanAux_correct (s : Signature) (buf : List Nat)
    (hsafe : SkipSafe s) (hml : s.mask.length = s.bytes.length)
    (hn1 : 1 ≤ s.bytes.length) (hnb : s.bytes.length ≤ buf.length)
    (hbuf : ∀ b ∈ buf, b < 256) :
    ∀ fuel current, buf.length - s.bytes.length + 2 - current ≤ fuel →
      (∀ i, Signature.scanAux s buf fuel current = some i ↔
        (current ≤ i ∧ matchAt s buf i ∧ ∀ q, current ≤ q → q < i → ¬ matchAt s buf q)) ∧
      (Signature.scanAux s buf fuel current = none ↔
        ∀ i, current ≤ i → ¬ matchAt s buf i) := by
  intro fuel
  induction fuel with
  | zero =>
    intro current hfuel
    have hcur : buf.length - s.bytes.length + 2 ≤ current := by omega
    constructor
    · intro i
      constructor
      · intro h
        cases h
      · rintro ⟨h1, h2, _⟩
        exfalso
        have := h2.1
        omega
    · constructor
      · intro _ i hi hm
        have := hm.1
        omega
      · intro _
        rfl
  | succ fuel ih =>
    intro current hfuel
    by_cases hcur : current ≤ buf.length - s.bytes.length
    · have hwind : current + s.bytes.length ≤ buf.length := by omega
      by_cases hw : s.windowMatch buf current = true
      · -- the window matches: the scan returns `current`
        have hmc : matchAt s buf current :=
          ⟨hwind, (windowMatch_iff s buf current hml hwind).mp hw⟩
        have heq : Signature.scanAux s buf (fuel + 1) current = some current := by
          show (if current ≤ buf.length - s.bytes.length then
              if s.windowMatch buf current then some current
              else Signature.scanAux s buf fuel
                (current + s.skip_offsets.getD (buf.getD (current + (s.bytes.length - 1)) 0) 0)
            else none) = some current
          rw [if_pos hcur, if_pos hw]
        rw [heq]
        constructor
        · intro i
          constructor
          · intro h
            injection h with h
            subst h
            exact ⟨Nat.le_refl _, hmc, fun q hq1 hq2 => absurd (Nat.lt_of_le_of_lt hq1 hq2) (Nat.lt_irrefl _)⟩
          · rintro ⟨h1, _, h3⟩
            rcases Nat.eq_or_lt_of_le h1 with rfl | hlt
            · rfl
            · exact absurd hmc (h3 current (Nat.le_refl _) hlt)
        · constructor
          · intro h
            cases h
          · intro h
            exact absurd hmc (h current (Nat.le_refl _))
      · -- mismatch: the scan advances by the skip table entry
        have hnm : ¬ matchAt s buf current := fun hm =>
          hw ((windowMatch_iff s buf current hml hwind).mpr hm.2)
        have hcidx : current + (s.bytes.length - 1) < buf.length := by omega
        have hcbuf : buf.getD (current + (s.bytes.length - 1)) 0 < 256 := by
          rw [List.getD_eq_getElem _ _ hcidx]
          exact hbuf _ (List.getElem_mem _)
        obtain ⟨hs1, hs2, hs3⟩ := hsafe _ hcbuf
        have heq : Signature.scanAux s buf (fuel + 1) current =
            Signature.scanAux s buf fuel
              (current + s.skip_offsets.getD (buf.getD (current + (s.bytes.length - 1)) 0) 0) := by
          show (if current ≤ buf.length - s.bytes.length then
              if s.windowMatch buf current then some current
              else Signature.scanAux s buf fuel
                (current + s.skip_offsets.getD (buf.getD (current + (s.bytes.length - 1)) 0) 0)
            else none) = _
          rw [if_pos hcur, if_neg hw]
        have hgap : ∀ q, current < q →
            q < current + s.skip_offsets.getD (buf.getD (current + (s.bytes.length - 1)) 0) 0 →
            ¬ matchAt s buf q := by
          intro q hq1 hq2 hm
          have ht1 : 1 ≤ q - current := by omega
          have ht2 : q - current < s.skip_offsets.getD (buf.getD (current + (s.bytes.length - 1)) 0) 0 := by
            omega
          obtain ⟨hmask0, hbyte0⟩ := hs3 (q - current) ht1 ht2
          have hjn : s.bytes.length - 1 - (q - current) < s.bytes.length := by omega
          have hqj : q + (s.bytes.length - 1 - (q - current)) = current + (s.bytes.length - 1) := by
            omega
          rcases hm.2 (s.bytes.length - 1 - (q - current)) hjn with hmk | hbt
          · rw [hmask0] at hmk
            cases hmk
          · rw [hqj] at hbt
            exact hbyte0 hbt
        have ih' := ih (current + s.skip_offsets.getD (buf.getD (current + (s.bytes.length - 1)) 0) 0)
          (by omega)
        rw [heq]
        constructor
        · intro i
          rw [ih'.1 i]
          constructor
          · rintro ⟨h1, h2, h3⟩
            refine ⟨by omega, h2, ?_⟩
            intro q hq1 hq2
            by_cases hq3 : q < current + s.skip_offsets.getD (buf.getD (current + (s.bytes.length - 1)) 0) 0
            · rcases Nat.eq_or_lt_of_le hq1 with rfl | hlt
              · exact hnm
              · exact hgap q hlt hq3
            · exact h3 q (by omega) hq2
          · rintro ⟨h1, h2, h3⟩
            have hge : current + s.skip_offsets.getD (buf.getD (current + (s.bytes.length - 1)) 0) 0 ≤ i := by
              by_contra hgt
              rcases Nat.eq_or_lt_of_le h1 with rfl | hlt
              · exact hnm h2
              · exact hgap i hlt (by omega) h2
            exact ⟨hge, h2, fun q hq1 hq2 => h3 q (by omega) hq2⟩
        · rw [ih'.2]
          constructor
          · intro h i hi
            by_cases hq3 : i < current + s.skip_offsets.getD (buf.getD (current + (s.bytes.length - 1)) 0) 0
            · rcases Nat.eq_or_lt_of_le hi with rfl | hlt
              · exact hnm
              · exact hgap i hlt hq3
            · exact h i (by omega)
          · intro h i hi
            exact h i (by omega)
    · -- past the last feasible offset: the loop exits with `none`
      have heq : Signature.scanAux s buf (fuel + 1) current = none := by
        show (if current ≤ buf.length - s.bytes.length then
            if s.windowMatch buf current then some current
            else Signature.scanAux s buf fuel
              (current + s.skip_offsets.getD (buf.getD (current + (s.bytes.length - 1)) 0) 0)
          else none) = none
        rw [if_neg hcur]
      rw [heq]
      constructor
      · intro i
        constructor
        · intro h
          cases h
        · rintro ⟨h1, h2, _⟩
          exfalso
          have := h2.1
          omega
      · constructor
        · intro _ i hi hm
          have := hm.1
          omega
        · intro _
          rfl

/-- The least-match characterisation of `Signature::scan`, for a compiled
signature whose byte pattern is non-empty and no longer than the buffer. -/
theorem scan_eq_least_match (sig : List Nat) (buf : List Nat)
    (hne : (Signature.newBytes sig).bytes ≠ [])
    (hlen : (Signature.newBytes sig).bytes.length ≤ buf.length)
    (hbuf : ∀ b ∈ buf, b < 256) :
    (∀ i, (Signature.newBytes sig).scan buf = some i ↔
      (matchAt (Signature.newBytes sig) buf i ∧
        ∀ q < i, ¬ matchAt (Signature.newBytes sig) buf q)) ∧
    ((Signature.newBytes sig).scan buf = none ↔
      ∀ i, ¬ matchAt (Signature.newBytes sig) buf i) := by
  have hn1 : 1 ≤ (Signature.newBytes sig).bytes.length := List.length_pos.mpr hne
  have h := scanAux_correct (Signature.newBytes sig) buf (newBytes_skipSafe _ hne)
    (newBytes_mask_length _) hn1 hlen hbuf (buf.length + 1) 0 (by omega)
  constructor
  · intro i
    unfold Signature.scan
    rw [h.1 i]
    constructor
    · rintro ⟨_, hm, hq⟩
      exact ⟨hm, fun q hq' => hq q (Nat.zero_le q) hq'⟩
    · rintro ⟨hm, hq⟩
      exact ⟨Nat.zero_le i, hm, fun q _ hq' => hq q hq'⟩
  · unfold Signature.scan
    rw [h.2]
    constructor
    · intro hq i
      exact hq i (Nat.zero_le i)
    · intro hq i _
      exact hq i

lemma windowMatch_zero_of_prefix (s : Signature) (buf : List Nat)
    (hml : s.mask.length = s.bytes.length)
    (h : ∀ k < min buf.length s.bytes.length,
      s.mask.getD k false = true ∨ s.bytes.getD k 0 = buf.getD k 0) :
    s.windowMatch buf 0 = true := by
  unfold Signature.windowMatch
  rw [List.drop_zero, List.all_eq_true]
  intro x hx
  obtain ⟨j, hjlen, hxe⟩ := List.mem_iff_getElem.mp hx
  have hjm : j < min buf.length s.bytes.length := by
    rw [List.length_zip, List.length_zip, hml] at hjlen
    omega
  have hjb : j < buf.length := by omega
  have hjs : j < s.bytes.length := by omega
  have hjmk : j < s.mask.length := by omega
  have hx2 : x = ((buf.getD j 0, s.bytes.getD j 0), s.mask.getD j false) := by
    rw [← hxe]
    rw [List.getElem_zip, List.getElem_zip]
    rw [List.getD_eq_getElem _ _ hjb, List.getD_eq_getElem _ _ hjs,
      List.getD_eq_getElem _ _ hjmk]
  rw [hx2]
  simp only [Bool.or_eq_true, beq_iff_eq]
  rcases h j hjm with hm | hb
  · exact Or.inr hm
  · exact Or.inl hb.symm

lemma scan_zero_of_window (s : Signature) (buf : List Nat)
    (hw : s.windowMatch buf 0 = true) : s.scan buf = some 0 := by
  unfold Signature.scan
  show (if 0 ≤ buf.length - s.bytes.length then
      if s.windowMatch buf 0 then some 0
      else Signature.scanAux s buf buf.length
        (0 + s.skip_offsets.getD (buf.getD (0 + (s.bytes.length - 1)) 0) 0)
    else none) = some 0
  rw [if_pos (Nat.zero_le _), if_pos hw]

/-- C3: Signature-scan first-match correctness.  For every signature string
and every byte buffer, if the compiled byte pattern is non-empty and no
longer than the buffer, `Signature::scan` returns `some i` exactly when `i`
is the smallest offset at which every pattern position is a wildcard or
agrees with the buffer, and returns not-found exactly when no offset
matches.  In particular the wildcard-aware Boyer-Moore-Horspool skip table
never skips past a genuine match. -/
theorem C3_signature_scan_first_match (sig : String) (buf : List Nat)
    (hne : (Signature.new sig).bytes ≠ [])
    (hlen : (Signature.new sig).bytes.length ≤ buf.length)
    (hbuf : ∀ b ∈ buf, b < 256) :
    (∀ i, (Signature.new sig).scan buf = some i ↔
      (matchAt (Signature.new sig) buf i ∧
        ∀ q < i, ¬ matchAt (Signature.new sig) buf q)) ∧
    ((Signature.new sig).scan buf = none ↔
      ∀ i, ¬ matchAt (Signature.new sig) buf i) :=
  scan_eq_least_match _ buf hne hlen hbuf

/-- Witness for C3 at the concrete scenario of the specification (§8 S4):
`"DE ?? BE EF"` matches the buffer `DE AD BE EF 41 42 43` at offset `0`. -/
theorem C3_signature_scan_first_match_witness :
    (Signature.new "DE ?? BE EF").scan [0xDE, 0xAD, 0xBE, 0xEF, 0x41, 0x42, 0x43] = some 0 := by
  have h := C3_signature_scan_first_match "DE ?? BE EF"
    [0xDE, 0xAD, 0xBE, 0xEF, 0x41, 0x42, 0x43] (by decide) (by decide) (by decide)
  exact (h.1 0).mpr (by decide)

/-- C7 counterexample: compiling and scanning an *empty* pattern does not
return not-found — it reports a match at offset `0` (the empty window
comparison succeeds immediately; in the source, `bytes.len() - 1`
additionally underflows while compiling such a signature).  Likewise a
pattern longer than the buffer is not guaranteed not-found: `"DE AD"`
scanned over the one-byte buffer `DE` reports a match at offset `0`,
because the window comparison is a `zip` that silently truncates at the
end of the buffer. -/
theorem C7_counterexample :
    (Signature.new "").scan [0xDE] = some 0 ∧
    (Signature.new "DE AD").scan [0xDE] = some 0 := by
  constructor
  · decide
  · decide

/-- C7 (amended): an empty pattern (no complete byte pairs) matches at
offset `0` of every buffer rather than returning not-found; a pattern whose
byte length exceeds the buffer length is not guaranteed not-found — whenever
every buffer position is a wildcard of, or agrees with, the corresponding
pattern prefix position, the scan reports offset `0`; a non-empty pattern
consisting entirely of wildcard bytes matches at offset `0` of any buffer at
least as long as the pattern (this last part of the original claim is
true). -/
theorem C7_amended_edge_cases :
    (∀ buf : List Nat, (Signature.new "").scan buf = some 0) ∧
    (∀ (sig : String) (buf : List Nat),
      buf.length < (Signature.new sig).bytes.length →
      (∀ k < buf.length,
        (Signature.new sig).mask.getD k false = true ∨
        (Signature.new sig).bytes.getD k 0 = buf.getD k 0) →
      (Signature.new sig).scan buf = some 0) ∧
    (∀ (sig : String) (buf : List Nat),
      (Signature.new sig).bytes ≠ [] →
      (∀ j < (Signature.new sig).bytes.length,
        (Signature.new sig).mask.getD j false = true) →
      (Signature.new sig).bytes.length ≤ buf.length →
      (Signature.new sig).scan buf = some 0) := by
  refine ⟨?_, ?_, ?_⟩
  · intro buf
    refine scan_zero_of_window _ _ ?_
    refine windowMatch_zero_of_prefix _ _ (newBytes_mask_length _) ?_
    intro k hk
    have hb : (Signature.new "").bytes = [] := by decide
    rw [hb] at hk
    simp at hk
  · intro sig buf hlt h
    refine scan_zero_of_window _ _ ?_
    refine windowMatch_zero_of_prefix _ _ (newBytes_mask_length _) ?_
    intro k hk
    exact h k (by omega)
  · intro sig buf _ hmask hle
    refine scan_zero_of_window _ _ ?_
    refine windowMatch_zero_of_prefix _ _ (newBytes_mask_length _) ?_
    intro k hk
    exact Or.inl (hmask k (by omega))

/-- Witness for C7 (amended) at concrete inputs: the empty pattern over the
buffer `01 02 03`, the two-byte pattern `"DE AD"` over the one-byte prefix
buffer `DE`, and the all-wildcard pattern `"?? ??"` over `07 08 09`. -/
theorem C7_amended_edge_cases_witness :
    (Signature.new "").scan [1, 2, 3] = some 0 ∧
    (Signature.new "DE AD").scan [0xDE] = some 0 ∧
    (Signature.new "?? ??").scan [7, 8, 9] = some 0 := by
  refine ⟨C7_amended_edge_cases.1 [1, 2, 3], ?_, ?_⟩
  · exact C7_amended_edge_cases.2.1 "DE AD" [0xDE] (by decide) (by decide)
  · exact C7_amended_edge_cases.2.2 "?? ??" [7, 8, 9] (by decide) (by decide) (by decide)

/-! ## Theorems on the process-level signature scan (C4) -/

lemma scan_signature_eq_go (p : Process) (maps : List MapRange) (sig : String)
    (hm : p.maps = some maps) :
    Process.scan_signature p sig =
      Process.scanGo p (Signature.new sig)
        (maps.filter (fun range => false || range.is_read)) := by
  unfold Process.scan_signature Process.memory_pages
  rw [hm]

lemma scanGo_abort (p : Process) (s : Signature) :
    ∀ (pre : List MapRange) (page : MapRange) (post : List MapRange),
    (∀ r ∈ pre, ∃ bytes, p.read_buf r.start r.size = Except.ok bytes ∧ s.scan bytes = none) →
    p.read_buf page.start page.size = Except.error ProcessError.ReadMemory →
    Process.scanGo p s (pre ++ page :: post) = Except.error ProcessError.ReadMemory := by
  intro pre
  induction pre with
  | nil =>
    intro page post _ hf
    simp only [List.nil_append]
    unfold Process.scanGo
    rw [hf]
  | cons r pre ih =>
    intro page post hpre hf
    obtain ⟨bytes, hok, hnone⟩ := hpre r (by simp)
    simp only [List.cons_append]
    unfold Process.scanGo
    rw [hok]
    show (match s.scan bytes with
        | some index => Except.ok (some (r.start + index))
        | none => Process.scanGo p s (pre ++ page :: post)) =
      Except.error ProcessError.ReadMemory
    rw [hnone]
    exact ih page post (fun r' hr' => hpre r' (by simp [hr'])) hf

lemma scanGo_all_ok (p : Process) (s : Signature) :
    ∀ pages : List MapRange,
    (∀ r ∈ pages, ∃ bytes, p.read_buf r.start r.size = Except.ok bytes) →
    Process.scanGo p s pages = Except.ok (firstRegionMatch p s pages) := by
  intro pages
  induction pages with
  | nil => intro _; rfl
  | cons page rest ih =>
    intro hall
    obtain ⟨bytes, hok⟩ := hall page (by simp)
    have htail := ih fun r hr => hall r (by simp [hr])
    unfold Process.scanGo firstRegionMatch
    rw [List.findSome?_cons, hok]
    cases hscan : s.scan bytes with
    | some index => simp [hscan]
    | none =>
      simp only [hscan, Option.map_none']
      unfold firstRegionMatch at htail
      rw [htail]

/-- C4 counterexample: scanning `procSkipEx` for `"CA FE"` aborts with
`ReadMemory` at the first (unreadable) region, even though the second
region does contain the pattern — the region is not skipped. -/
theorem C4_counterexample :
    Process.scan_signature procSkipEx "CA FE" = Except.error ProcessError.ReadMemory ∧
    Process.scanGo procSkipEx (Signature.new "CA FE") [⟨0x2000, 2, true⟩] =
      Except.ok (some 0x2000) := by
  constructor
  · rfl
  · rfl

/-- C4 (amended): `Process::scan_signature` visits readable regions in
order, but if reading a region fails before a match is found the whole
scan aborts with `ReadMemory` (the `?` propagates) rather than skipping the
region; when every readable region reads successfully, it returns the
first match address or not-found. -/
theorem C4_amended_abort_not_skip (p : Process) (maps : List MapRange) (sig : String)
    (hm : p.maps = some maps) :
    (∀ pre page post,
      maps.filter (fun range => false || range.is_read) = pre ++ page :: post →
      (∀ r ∈ pre, ∃ bytes, p.read_buf r.start r.size = Except.ok bytes ∧
        (Signature.new sig).scan bytes = none) →
      p.read_buf page.start page.size = Except.error ProcessError.ReadMemory →
      Process.scan_signature p sig = Except.error ProcessError.ReadMemory) ∧
    ((∀ r ∈ maps.filter (fun range => false || range.is_read),
        ∃ bytes, p.read_buf r.start r.size = Except.ok bytes) →
      Process.scan_signature p sig =
        Except.ok (firstRegionMatch p (Signature.new sig)
          (maps.filter (fun range => false || range.is_read)))) := by
  constructor
  · intro pre page post hsplit hpre hf
    rw [scan_signature_eq_go p maps sig hm, hsplit]
    exact scanGo_abort p _ pre page post hpre hf
  · intro hall
    rw [scan_signature_eq_go p maps sig hm]
    exact scanGo_all_ok p _ _ hall

/-- Witness for C4 (amended): the abort branch at `procSkipEx` (first
region unreadable) and the all-success branch at `procOkEx` (match found in
the second region at `0x2000`). -/
theorem C4_amended_abort_not_skip_witness :
    Process.scan_signature procSkipEx "CA FE" = Except.error ProcessError.ReadMemory ∧
    Process.scan_signature procOkEx "CA FE" = Except.ok (some 0x2000) := by
  constructor
  · exact (C4_amended_abort_not_skip procSkipEx _ "CA FE" rfl).1
      [] ⟨0x1000, 2, true⟩ [⟨0x2000, 2, true⟩] rfl (by intro r hr; cases hr) rfl
  · refine ((C4_amended_abort_not_skip procOkEx _ "CA FE" rfl).2 ?_).trans (by rfl)
    intro r hr
    have hfe : ([⟨0x1000, 2, true⟩, ⟨0x2000, 2, true⟩] : List MapRange).filter
        (fun range => false || range.is_read) =
        [⟨0x1000, 2, true⟩, ⟨0x2000, 2, true⟩] := rfl
    rw [hfe] at hr
    rcases List.mem_cons.mp hr with rfl | hr
    · exact ⟨List.replicate 2 0, rfl⟩
    · rcases List.mem_cons.mp hr with rfl | hr
      · exact ⟨[0xCA, 0xFE], rfl⟩
      · cases hr

/-! ## Theorems on the tick driver (C1, C2, C9) -/

lemma run_script_no_disconnected (rt : Runtime) (g : Guest) :
    GuestCall.disconnected ∉ (rt.run_script g).2.2 := by
  rcases rt with ⟨env, ts, il, gt⟩
  rcases g with ⟨u, ss, isl, gtm, sp, sr, dc⟩
  cases ts <;> cases u <;> cases ss <;> cases isl <;> cases gtm <;> cases sp <;> cases sr <;>
    simp only [Runtime.run_script] <;> (try split_ifs) <;> simp

/-- C1: the live `Runtime::update_values` is a no-op — its entire body is
commented out, so no pointer path's `current`/`old` is ever read or
rotated; the commented-out body, embedded as `update_values_commented`,
would on the first tick after connecting read the path's value (here `7`)
into `old` and clone it into `current`, which is what the claim (and the
specification) describes. -/
theorem C1_update_values_is_noop :
    (∀ (rt : Runtime) (jc : Bool), rt.update_values jc = Except.ok rt) ∧
    (update_values_commented envC1 true =
      some { envC1 with
        pointer_paths :=
          [{ module_name := "", offsets := [0], current := PointerValue.U8 7,
             old := PointerValue.U8 7 }] }) := by
  constructor
  · intro rt jc
    rfl
  · rfl

/-- C2: the disconnect path is dead code — `update_values` always succeeds
(its body is commented out), so the branch that clears `env.process` and
would notify the guest is unreachable; moreover the `disconnected` guest
call inside that branch is itself commented out, so no tick ever invokes
`disconnected`. -/
theorem C2_disconnected_never_called :
    (∀ (rt : Runtime) (jc : Bool), rt.update_values jc = Except.ok rt) ∧
    (∀ (rt : Runtime) (g : Guest) (w : StepWorld),
      GuestCall.disconnected ∉ (rt.step g w).2.2) := by
  refine ⟨fun rt jc => rfl, ?_⟩
  intro rt g w
  unfold Runtime.step
  split
  · split
    · simp
    · exact run_script_no_disconnected _ _
  · exact run_script_no_disconnected _ _

lemma run_script_action_eq_spec (rt : Runtime) (g : Guest) :
    (rt.run_script g).2.1 = specFirstAction rt.timer_state g := by
  rcases rt with ⟨env, ts, il, gt⟩
  rcases g with ⟨u, ss, isl, gtm, sp, sr, dc⟩
  cases ts <;> cases u <;> cases ss <;> cases isl <;> cases gtm <;> cases sp <;> cases sr <;>
    simp only [Runtime.run_script, specFirstAction, predicateOrder, List.findSome?] <;>
    (try split_ifs) <;> rfl

/-- C9: in every timer state the returned action is the first §4.5-ordered
predicate that fires; in `Running`, when both `should_split` and
`should_reset` are exported and return nonzero, the tick returns `Split`,
and `should_reset` is not even consulted (it is absent from the tick's
guest-call trace). -/
theorem C9_action_precedence :
    (∀ (rt : Runtime) (g : Guest),
      (rt.run_script g).2.1 = specFirstAction rt.timer_state g) ∧
    (∀ (rt : Runtime) (g : Guest) (v w : Int),
      rt.timer_state = TimerState.Running →
      g.should_split = some v → g.should_reset = some w → v ≠ 0 →
      (rt.run_script g).2.1 = some TimerAction.Split ∧
      GuestCall.should_reset ∉ (rt.run_script g).2.2) := by
  refine ⟨run_script_action_eq_spec, ?_⟩
  intro rt g v w hts hsp hsr hv
  rcases rt with ⟨env, ts, il, gt⟩
  rcases g with ⟨u, ss, isl, gtm, sp, sr, dc⟩
  cases hts
  cases hsp
  cases hsr
  cases u <;> cases isl <;> cases gtm <;>
    simp only [Runtime.run_script] <;> (try split_ifs) <;> simp_all

/-! ## Theorems on the host functions (C5, C6, C8) -/

/-- C5: the "not hooked" halves of the claim hold — `scan_signature`
returns `0` and `read_into_buf` leaves guest memory untouched when no
process is hooked — but the "swallow target errors" halves do not: with a
hooked process, a failing scan or target read reaches the `.unwrap()` and
panics (both sites carry a `TODO: Don't panic` comment) instead of
returning `0` / no-op. -/
theorem C5_host_calls_panic_on_target_error :
    (∀ (env : Environment) (s : String), env.process = none →
      Host.scan_signature env s = Except.ok 0) ∧
    (∀ (env : Environment) (memory : List Nat) (address buf buf_len : Nat),
      env.process = none → buf + buf_len ≤ memory.length →
      Host.read_into_buf env memory address buf buf_len = Except.ok memory) ∧
    Host.scan_signature envScanFail "CA FE" = Except.error HostPanic.panicked ∧
    Host.read_into_buf envScanFail [0, 0] 0x1000 0 2 = Except.error HostPanic.panicked := by
  refine ⟨?_, ?_, rfl, rfl⟩
  · intro env s h
    unfold Host.scan_signature
    rw [h]
  · intro env memory address buf buf_len h hle
    unfold Host.read_into_buf
    rw [if_pos hle, h]

/-- Witness for C5 at concrete inputs: an unhooked environment probes
without error, and the hooked `envScanFail` panics. -/
theorem C5_host_calls_panic_on_target_error_witness :
    Host.scan_signature Environment.new "CA FE" = Except.ok 0 ∧
    Host.read_into_buf Environment.new [9, 9] 0x1000 0 2 = Except.ok [9, 9] := by
  constructor
  · exact C5_host_calls_panic_on_target_error.1 Environment.new "CA FE" rfl
  · exact C5_host_calls_panic_on_target_error.2.1 Environment.new [9, 9] 0x1000 0 2 rfl
      (by decide)

/-- C6: typed-getter validation through `get_val`, for any getter whose
conversion accepts exactly the values of its declared kind (each of
`get_u8 .. get_f64` is such an instantiation): an id beyond the registry
fails with `InvalidPointerPathId`; an existing path of the wrong kind fails
with `TypeMismatch`; a matching kind succeeds and returns the converted
`current` value when the 32-bit flag is nonzero and the `old` value when it
is zero. -/
theorem C6_typed_getter_validation {T : Type} (K : PointerType)
    (convert : PointerValue → Option T)
    (hconv : ∀ v : PointerValue, (convert v).isSome = true ↔ v.kind = K)
    (env : Environment) (id : Nat) (cur : Int) :
    (env.pointer_paths.get? id = none →
      Host.get_val env id cur convert = Except.error EnvironmentError.InvalidPointerPathId) ∧
    (∀ pp, env.pointer_paths.get? id = some pp →
      ((if cur ≠ 0 then pp.current else pp.old).kind ≠ K →
        Host.get_val env id cur convert = Except.error EnvironmentError.TypeMismatch) ∧
      ((if cur ≠ 0 then pp.current else pp.old).kind = K →
        ∃ t, convert (if cur ≠ 0 then pp.current else pp.old) = some t ∧
          Host.get_val env id cur convert = Except.ok t)) := by
  constructor
  · intro h
    unfold Host.get_val
    rw [h]
  · intro pp hpp
    constructor
    · intro hk
      have hnone : convert (if cur ≠ 0 then pp.current else pp.old) = none := by
        rcases hx : convert (if cur ≠ 0 then pp.current else pp.old) with _ | t
        · rfl
        · exact absurd ((hconv _).mp (by rw [hx]; rfl)) hk
      unfold Host.get_val
      rw [hpp]
      show (match convert (if cur ≠ 0 then pp.current else pp.old) with
        | none => Except.error EnvironmentError.TypeMismatch
        | some v => Except.ok v) = Except.error EnvironmentError.TypeMismatch
      rw [hnone]
    · intro hk
      have hsome := (hconv _).mpr hk
      rcases hx : convert (if cur ≠ 0 then pp.current else pp.old) with _ | t
      · rw [hx] at hsome
        cases hsome
      · refine ⟨t, rfl, ?_⟩
        unfold Host.get_val
        rw [hpp]
        show (match convert (if cur ≠ 0 then pp.current else pp.old) with
          | none => Except.error EnvironmentError.TypeMismatch
          | some v => Except.ok v) = Except.ok t
        rw [hx]

/-- Witness for C6 at `envGet` (one `U8` path, `current = 7`, `old = 5`),
through the `get_u8`/`get_u16` instantiations of `get_val`: bad id, kind
mismatch, and both flag polarities of a matching read. -/
theorem C6_typed_getter_validation_witness :
    Host.get_u8 envGet 1 1 = Except.error EnvironmentError.InvalidPointerPathId ∧
    Host.get_u16 envGet 0 1 = Except.error EnvironmentError.TypeMismatch ∧
    Host.get_u8 envGet 0 1 = Except.ok 7 ∧
    Host.get_u8 envGet 0 0 = Except.ok 5 := by
  have hconv8 : ∀ v : PointerValue,
      ((fun v => match v with
        | PointerValue.U8 v => some v
        | _ => none) v : Option Nat).isSome = true ↔ v.kind = PointerType.U8 := by
    intro v
    cases v <;> simp [PointerValue.kind]
  have hconv16 : ∀ v : PointerValue,
      ((fun v => match v with
        | PointerValue.U16 v => some v
        | _ => none) v : Option Nat).isSome = true ↔ v.kind = PointerType.U16 := by
    intro v
    cases v <;> simp [PointerValue.kind]
  refine ⟨?_, ?_, ?_, ?_⟩
  · exact (C6_typed_getter_validation PointerType.U8 _ hconv8 envGet 1 1).1 rfl
  · exact ((C6_typed_getter_validation PointerType.U16 _ hconv16 envGet 0 1).2 _ rfl).1
      (by decide)
  · obtain ⟨t, ht, hr⟩ := ((C6_typed_getter_validation PointerType.U8 _ hconv8 envGet 0 1).2
      _ rfl).2 rfl
    have : t = 7 := by
      have := ht.symm
      injection this
    rw [← this]
    exact hr
  · obtain ⟨t, ht, hr⟩ := ((C6_typed_getter_validation PointerType.U8 _ hconv8 envGet 0 0).2
      _ rfl).2 rfl
    have : t = 5 := by
      have := ht.symm
      injection this
    rw [← this]
    exact hr

/-- C8: `push_pointer_path` with a known wire code appends exactly one
path and returns the pre-push length as the id (so ids are `0, 1, 2, …` in
insertion order); every existing id still resolves to the same path; the
new path has no offsets, a zero-initialised value of the declared kind, and
`old` equal to `current`.  An empty module string is accepted (the
`module_name` quantifier includes `""`). -/
theorem C8_pointer_path_registry (env : Environment) (module_name : String)
    (code : Nat) (pt : PointerType) (h : PointerType.from_u8 code = some pt) :
    ∃ env', Host.push_pointer_path env module_name code =
        Except.ok (env', env.pointer_paths.length) ∧
      env'.pointer_paths.length = env.pointer_paths.length + 1 ∧
      (∀ i, i < env.pointer_paths.length →
        env'.pointer_paths.get? i = env.pointer_paths.get? i) ∧
      env'.pointer_paths.get? env.pointer_paths.length =
        some { module_name := module_name, offsets := [],
               old := zeroValue pt, current := zeroValue pt } ∧
      (zeroValue pt).kind = pt := by
  refine ⟨{ env with
      pointer_paths := env.pointer_paths ++
        [{ module_name := module_name, offsets := [], old := zeroValue pt,
           current := zeroValue pt }] }, ?_, ?_, ?_, ?_, ?_⟩
  · unfold Host.push_pointer_path
    rw [h]
  · simp
  · intro i hi
    exact List.get?_append hi
  · exact List.get?_concat_length _ _
  · cases pt <;> rfl

/-- Witness for C8: the first push into a fresh environment (empty module
string, wire code `0` = `U8`) returns id `0` and the zero-initialised
path. -/
theorem C8_pointer_path_registry_witness :
    ∃ env', Host.push_pointer_path Environment.new "" 0 = Except.ok (env', 0) ∧
      env'.pointer_paths.length = 1 ∧
      (∀ i, i < 0 →
        env'.pointer_paths.get? i = Environment.new.pointer_paths.get? i) ∧
      env'.pointer_paths.get? 0 =
        some { module_name := "", offsets := [],
               old := zeroValue PointerType.U8, current := zeroValue PointerType.U8 } ∧
      (zeroValue PointerType.U8).kind = PointerType.U8 :=
  C8_pointer_path_registry Environment.new "" 0 PointerType.U8 rfl

/-! ## Theorems on the filesystem shim (C10) -/

lemma set_none_of_get?_some_none (l : List (Option Nat)) :
    ∀ i, l.get? i = some none → l.set i none = l := by
  induction l with
  | nil =>
    intro i h
    cases h
  | cons a tl ih =>
    intro i h
    cases i with
    | zero =>
      have ha : a = none := by
        simpa using h
      rw [ha]
      rfl
    | succ i =>
      show a :: tl.set i none = a :: tl
      rw [ih i (by simpa using h)]

/-- C10: `fd_close` succeeds for every descriptor `fd ≥ 4` whose slot index
`fd - 4` lies inside the file table — including a slot that is already
empty, in which case the table is left unchanged (double-close is not an
error) — and reports `EBADF` for every `fd < 4` (stdio and the preopened
directory descriptor `3`). -/
theorem C10_fd_close_semantics (fs : FileSystem) (fd : Nat) :
    (4 ≤ fd → fd - 4 < fs.files.length →
      fs.fd_close fd = ({ files := fs.files.set (fd - 4) none }, WASI_ESUCCESS) ∧
      (fs.files.get? (fd - 4) = some none → fs.fd_close fd = (fs, WASI_ESUCCESS))) ∧
    (fd < 4 → fs.fd_close fd = (fs, WASI_EBADF)) := by
  constructor
  · intro h4 hlen
    have heq : fs.fd_close fd = ({ files := fs.files.set (fd - 4) none }, WASI_ESUCCESS) := by
      unfold FileSystem.fd_close
      rw [if_pos ⟨h4, hlen⟩]
    refine ⟨heq, ?_⟩
    intro hslot
    rw [heq, set_none_of_get?_some_none fs.files (fd - 4) hslot]
  · intro h4
    unfold FileSystem.fd_close
    rw [if_neg (by omega)]

/-- Witness for C10 on a one-slot table whose slot is already closed:
`fd_close 4` succeeds twice in a row without changing the table, and
`fd_close 3` (the preopened directory) reports `EBADF`. -/
theorem C10_fd_close_semantics_witness :
    FileSystem.fd_close ⟨[none]⟩ 4 = (⟨[none]⟩, WASI_ESUCCESS) ∧
    FileSystem.fd_close ⟨[none]⟩ 3 = (⟨[none]⟩, WASI_EBADF) ∧
    FileSystem.fd_close ⟨[none]⟩ 0 = (⟨[none]⟩, WASI_EBADF) := by
  refine ⟨?_, ?_, ?_⟩
  · exact ((C10_fd_close_semantics ⟨[none]⟩ 4).1 (by decide) (by decide)).2 rfl
  · exact (C10_fd_close_semantics ⟨[none]⟩ 3).2 (by decide)
  · exact (C10_fd_close_semantics ⟨[none]⟩ 0).2 (by decide)

/-- The file table never shrinks: `path_open` either reuses an empty slot
or appends, so every slot index ever handed out stays inside the table
(this is what makes "` fd - 4` has ever been allocated" equivalent to
"`fd - 4 < files.length`" in C10). -/
theorem path_open_alloc_monotone (fs : FileSystem) (file : Nat) :
    fs.files.length ≤ (fs.path_open_alloc file).1.files.length ∧
    (fs.path_open_alloc file).2 - 4 < (fs.path_open_alloc file).1.files.length := by
  unfold FileSystem.path_open_alloc
  cases hidx : fs.files.findIdx? Option.isNone with
  | some i =>
    refine ⟨?_, ?_⟩
    · show fs.files.length ≤ (fs.files.set i (some file)).length
      rw [List.length_set]
    · show i + 4 - 4 < (fs.files.set i (some file)).length
      rw [List.length_set]
      have hi : i < fs.files.length := (List.findIdx?_eq_some_iff_findIdx_eq.mp hidx).1
      omega
  | none =>
    refine ⟨?_, ?_⟩
    · show fs.files.length ≤ (fs.files ++ [some file]).length
      simp
    · show fs.files.length + 4 - 4 < (fs.files ++ [some file]).length
      simp

/-! ## The rotation behaviour of the commented-out `update_values` body

These theorems relate the commented-out implementation to the
specification's P3/P4: it is precisely the behaviour the specification
describes, which the live (no-op) `update_values` does not perform. -/

lemma mapM_option_get? {α β : Type} (f : α → Option β) :
    ∀ (l : List α) (l' : List β), l.mapM f = some l' →
      ∀ k a, l.get? k = some a → ∃ b, f a = some b ∧ l'.get? k = some b := by
  intro l
  induction l with
  | nil =>
    intro l' h k a ha
    cases ha
  | cons x xs ih =>
    intro l' h k a ha
    rw [List.mapM_cons] at h
    rcases hfx : f x with _ | b
    · rw [hfx] at h
      cases h
    · rw [hfx] at h
      rcases hxs : xs.mapM f with _ | bs
      · rw [hxs] at h
        cases h
      · rw [hxs] at h
        have h' : b :: bs = l' := by
          simpa using h
        subst h'
        cases k with
        | zero =>
          simp only [List.get?_cons_zero, Option.some.injEq] at ha
          subst ha
          exact ⟨b, hfx, rfl⟩
        | succ k =>
          simp only [List.get?_cons_succ] at ha
          obtain ⟨b', hb', hg⟩ := ih bs hxs k a ha
          exact ⟨b', hb', by simpa using hg⟩

lemma update_values_commented_eq_some (env : Environment) (p : Process) (jc : Bool)
    (paths : List PointerPath)
    (hp : env.process = some p)
    (hm : env.pointer_paths.mapM (updatePath p) = some paths) :
    update_values_commented env jc =
      some { env with pointer_paths :=
        (if jc then paths.map (fun (pp : PointerPath) => { pp with current := pp.old })
          else paths.map (fun (pp : PointerPath) => { pp with current := pp.old, old := pp.current })) } := by
  simp only [update_values_commented, hp, hm]

lemma update_values_commented_eq_none (env : Environment) (p : Process) (jc : Bool)
    (hp : env.process = some p)
    (hm : env.pointer_paths.mapM (updatePath p) = none) :
    update_values_commented env jc = none := by
  simp only [update_values_commented, hp, hm]

lemma updatePath_spec (p : Process) (pp ppu : PointerPath)
    (h : updatePath p pp = some ppu) :
    ppu.current = pp.current ∧ ∃ address, readLeaf p pp.old.kind address = some ppu.old := by
  unfold updatePath at h
  split at h
  · cases h
  · split at h
    · cases h
    · rename_i base hbase address haddr
      split at h
      · cases h
      · rename_i v hv
        injection h with h
        subst h
        exact ⟨rfl, address, by rw [hv]⟩

/-- Steady-state rotation of the commented-out body (spec P3): on a tick
with `just_connected = false`, every path's new `current` is the value just
read from the target (via `readLeaf` at the resolved address) and its new
`old` is the previous tick's `current`. -/
theorem update_values_commented_rotation (env env' : Environment)
    (p : Process) (hp : env.process = some p)
    (h : update_values_commented env false = some env') :
    ∀ k pp, env.pointer_paths.get? k = some pp →
      ∃ ppu, updatePath p pp = some ppu ∧
        env'.pointer_paths.get? k =
          some { ppu with current := ppu.old, old := ppu.current } ∧
        ppu.current = pp.current ∧
        (∃ address, readLeaf p pp.old.kind address = some ppu.old) := by
  intro k pp hk
  rcases hm : env.pointer_paths.mapM (updatePath p) with _ | paths
  · rw [update_values_commented_eq_none env p false hp hm] at h
    cases h
  · rw [update_values_commented_eq_some env p false paths hp hm] at h
    have h' : { env with pointer_paths :=
        (if false then paths.map (fun (pp : PointerPath) => { pp with current := pp.old })
          else paths.map (fun (pp : PointerPath) => { pp with current := pp.old, old := pp.current })) } = env' := by
      injection h
    subst h'
    obtain ⟨ppu, hppu, hget⟩ := mapM_option_get? (updatePath p) env.pointer_paths paths hm k pp hk
    obtain ⟨hcur, haddr⟩ := updatePath_spec p pp ppu hppu
    refine ⟨ppu, hppu, ?_, hcur, haddr⟩
    have hpp2 : (paths.map
        (fun (pp : PointerPath) => { pp with current := pp.old, old := pp.current })).get? k =
        some { ppu with current := ppu.old, old := ppu.current } := by
      rw [List.get?_map, hget]
      rfl
    exact hpp2

/-- First-tick seeding of the commented-out body (spec P4): on a tick with
`just_connected = true`, every path ends with `current = old` (both hold
the first observation). -/
theorem update_values_commented_first_tick (env env' : Environment)
    (p : Process) (hp : env.process = some p)
    (h : update_values_commented env true = some env') :
    ∀ pp' ∈ env'.pointer_paths, pp'.current = pp'.old := by
  rcases hm : env.pointer_paths.mapM (updatePath p) with _ | paths
  · rw [update_values_commented_eq_none env p true hp hm] at h
    cases h
  · rw [update_values_commented_eq_some env p true paths hp hm] at h
    have h' : { env with pointer_paths :=
        (if true then paths.map (fun (pp : PointerPath) => { pp with current := pp.old })
          else paths.map (fun (pp : PointerPath) => { pp with current := pp.old, old := pp.current })) } = env' := by
      injection h
    subst h'
    intro pp' hpp'
    have hmem : pp' ∈ paths.map (fun (pp : PointerPath) => { pp with current := pp.old }) := hpp'
    simp only [List.mem_map] at hmem
    obtain ⟨pp, _, rfl⟩ := hmem
    rfl

/-- Witness for C9: with both predicates nonzero in `Running`, the tick
returns `Split` and never consults `should_reset`. -/
theorem C9_action_precedence_witness :
    (rtRunning.run_script guestBoth).2.1 = some TimerAction.Split ∧
    GuestCall.should_reset ∉ (rtRunning.run_script guestBoth).2.2 :=
  C9_action_precedence.2 rtRunning guestBoth 1 1 rfl rfl rfl (by decide)

end LiveSplit

